import Mathlib

/-!
Verification of the disk-cache engine (`libs/cache`): a shallow embedding of
`disk.rs` and the `CacheHandle` of `lib.rs`, together with theorems checking
the natural-language specification against the embedded code.

Rust strings are modelled as lists of naturals (their code points), file
contents as lists of naturals (bytes), and paths as lists of components.
The external serialization crates (`toml`, `flexbuffers`) are modelled by
concrete executable codecs over the serde data model `SVal`, faithful to the
contract the specification states for them: a human-readable structured-text
encoding and a compact binary encoding, each with round-trip fidelity, where
the binary encoding produces bytes that are not valid UTF-8 text.
-/

namespace Substrate2Cache

/-- A model byte string / code-point string. -/
abbrev Bytes := List Nat

/-- A path is a list of components, each a component name (code points). -/
abbrev Path := List Bytes

/-- Per-entry status, from `disk.rs`: `enum ValueStatus { Loading, InUse, Evicting }`. -/
inductive ValueStatus where
  | Loading
  | InUse
  | Evicting
deriving DecidableEq, Repr

/-- The serde data model, specialized to the shapes this program serializes:
unit, integers, strings, arrays of strings (the root manifest's item set) and
string-to-status maps (the item manifest's values map). -/
inductive SVal where
  | unitV
  | natV (n : Nat)
  | strV (s : Bytes)
  | strArr (xs : List Bytes)
  | statusMap (kvs : List (Bytes × ValueStatus))
deriving DecidableEq, Repr

/-- Concatenation of the images of a list under a list-valued function. -/
def concatMap {α β : Type} (f : α → List β) : List α → List β
  | [] => []
  | a :: t => f a ++ concatMap f t

/-- Model of UTF-8 validity of a byte string: in this model, exactly the byte
strings all of whose bytes are below 128 decode as text.  The model text
encoder only emits such bytes, and the model binary encoder always emits a
leading byte of 200, so binary payloads are never valid text, mirroring how
`flexbuffers` output is in general not valid UTF-8. -/
def utf8Valid : Bytes → Bool
  | [] => true
  | b :: t => if b < 128 then utf8Valid t else false

/-- Escape of one code point in a model text-format string literal: plain
ASCII code points other than the quote and backslash are emitted verbatim,
everything else (including all non-ASCII Unicode code points) is escaped as a
backslash, a unary run of 49-bytes, and a 59-byte terminator. -/
def escChar (c : Nat) : Bytes :=
  if c < 128 ∧ c ≠ 34 ∧ c ≠ 92 then [c] else 92 :: List.replicate c 49 ++ [59]

/-- A model text-format string literal: quote, escaped code points, quote. -/
def strLit (s : Bytes) : Bytes := 34 :: concatMap escChar s ++ [34]

/-- The literal tag a `ValueStatus` serializes to, per the specification:
the ASCII bytes of `Loading`, `InUse` and `Evicting`. -/
def statusTag : ValueStatus → Bytes
  | .Loading => [76, 111, 97, 100, 105, 110, 103]
  | .InUse => [73, 110, 85, 115, 101]
  | .Evicting => [69, 118, 105, 99, 116, 105, 110, 103]

/-- Modelled from the spec: the structured-text (TOML) encoder provided by the
external `toml` crate, as a concrete executable text encoding of the serde
data model.  All emitted bytes are below 128, so its output is valid text. -/
def tomlEncode : SVal → Bytes
  | .unitV => [117]
  | .natV n => 110 :: List.replicate n 49 ++ [59]
  | .strV s => strLit s
  | .strArr xs => 91 :: concatMap strLit xs ++ [93]
  | .statusMap kvs => 123 :: concatMap (fun kv => strLit kv.1 ++ statusTag kv.2) kvs ++ [125]

/-- Fuel-indexed parser for a unary run of 49-bytes closed by a 59-byte. -/
def parseUnary : Nat → Bytes → Option (Nat × Bytes)
  | 0, _ => none
  | _ + 1, [] => none
  | f + 1, c :: r =>
    if c = 59 then some (0, r)
    else if c = 49 then (parseUnary f r).map (fun p => (p.1 + 1, p.2))
    else none

/-- Fuel-indexed parser for the body of a text-format string literal. -/
def parseLitAux : Nat → Bytes → Bytes → Option (Bytes × Bytes)
  | 0, _, _ => none
  | _ + 1, [], _ => none
  | f + 1, c :: r, acc =>
    if c = 34 then some (acc.reverse, r)
    else if c = 92 then
      match parseUnary f r with
      | some (cp, r') => parseLitAux f r' (cp :: acc)
      | none => none
    else if c < 128 then parseLitAux f r (c :: acc) else none

/-- Parser for a status tag. -/
def parseStatus : Bytes → Option (ValueStatus × Bytes)
  | 76 :: 111 :: 97 :: 100 :: 105 :: 110 :: 103 :: r => some (.Loading, r)
  | 73 :: 110 :: 85 :: 115 :: 101 :: r => some (.InUse, r)
  | 69 :: 118 :: 105 :: 99 :: 116 :: 105 :: 110 :: 103 :: r => some (.Evicting, r)
  | _ => none

/-- Fuel-indexed parser for a bracketed list of string literals. -/
def parseStrList : Nat → Bytes → List Bytes → Option (List Bytes × Bytes)
  | 0, _, _ => none
  | _ + 1, [], _ => none
  | f + 1, c :: r, acc =>
    if c = 93 then some (acc.reverse, r)
    else if c = 34 then
      match parseLitAux f r [] with
      | some (s, r') => parseStrList f r' (s :: acc)
      | none => none
    else none

/-- Fuel-indexed parser for a braced list of string-literal keys each followed
by a status tag. -/
def parseStatusList : Nat → Bytes → List (Bytes × ValueStatus) →
    Option (List (Bytes × ValueStatus) × Bytes)
  | 0, _, _ => none
  | _ + 1, [], _ => none
  | f + 1, c :: r, acc =>
    if c = 125 then some (acc.reverse, r)
    else if c = 34 then
      match parseLitAux f r [] with
      | some (k, r') =>
        match parseStatus r' with
        | some (v, r'') => parseStatusList f r'' ((k, v) :: acc)
        | none => none
      | none => none
    else none

/-- Modelled from the spec: the structured-text (TOML) decoder of the external
`toml` crate.  It accepts exactly complete documents produced by the model
text encoder and fails (absence) on everything else. -/
def tomlDecode (bs : Bytes) : Option SVal :=
  match bs with
  | [117] => some .unitV
  | 110 :: r =>
    match parseUnary (r.length + 1) r with
    | some (n, []) => some (.natV n)
    | _ => none
  | 34 :: r =>
    match parseLitAux (r.length + 1) r [] with
    | some (s, []) => some (.strV s)
    | _ => none
  | 91 :: r =>
    match parseStrList (r.length + 1) r [] with
    | some (xs, []) => some (.strArr xs)
    | _ => none
  | 123 :: r =>
    match parseStatusList (r.length + 1) r [] with
    | some (kvs, []) => some (.statusMap kvs)
    | _ => none
  | _ => none

/-- One status byte of the model binary format. -/
def statusByte : ValueStatus → Nat
  | .Loading => 0
  | .InUse => 1
  | .Evicting => 2

/-- Length-prefixed raw string of the model binary format. -/
def lenPrefixed (s : Bytes) : Bytes := List.replicate s.length 49 ++ 59 :: s

/-- Body of the model binary encoding. -/
def binEncodeBody : SVal → Bytes
  | .unitV => [0]
  | .natV n => 1 :: List.replicate n 49 ++ [59]
  | .strV s => 2 :: lenPrefixed s
  | .strArr xs => 3 :: List.replicate xs.length 49 ++ 59 :: concatMap lenPrefixed xs
  | .statusMap kvs =>
    4 :: List.replicate kvs.length 49 ++
      59 :: concatMap (fun kv => lenPrefixed kv.1 ++ [statusByte kv.2]) kvs

/-- Modelled from the spec: the compact binary encoder of the external
`flexbuffers` crate.  Every emitted byte string starts with the byte 200, so
in this model no binary payload is valid UTF-8 text. -/
def binEncode (v : SVal) : Bytes := 200 :: binEncodeBody v

/-- Reads exactly `n` raw bytes. -/
def takeN : Nat → Bytes → Option (Bytes × Bytes)
  | 0, r => some ([], r)
  | n + 1, c :: r => (takeN n r).map (fun p => (c :: p.1, p.2))
  | _ + 1, [] => none

/-- Reads `n` length-prefixed raw strings. -/
def parseStrs : Nat → Bytes → Option (List Bytes × Bytes)
  | 0, r => some ([], r)
  | n + 1, r =>
    match parseUnary (r.length + 1) r with
    | some (len, r') =>
      match takeN len r' with
      | some (s, r'') => (parseStrs n r'').map (fun p => (s :: p.1, p.2))
      | none => none
    | none => none

/-- Parses one status byte of the model binary format. -/
def parseStatusByte : Bytes → Option (ValueStatus × Bytes)
  | 0 :: r => some (.Loading, r)
  | 1 :: r => some (.InUse, r)
  | 2 :: r => some (.Evicting, r)
  | _ => none

/-- Reads `n` key-status pairs of the model binary format. -/
def parseKVs : Nat → Bytes → Option (List (Bytes × ValueStatus) × Bytes)
  | 0, r => some ([], r)
  | n + 1, r =>
    match parseUnary (r.length + 1) r with
    | some (len, r') =>
      match takeN len r' with
      | some (k, r'') =>
        match parseStatusByte r'' with
        | some (v, r''') => (parseKVs n r''').map (fun p => ((k, v) :: p.1, p.2))
        | none => none
      | none => none
    | none => none

/-- Body of the model binary decoding. -/
def binDecodeBody : Bytes → Option SVal
  | [0] => some .unitV
  | 1 :: r =>
    match parseUnary (r.length + 1) r with
    | some (n, []) => some (.natV n)
    | _ => none
  | 2 :: r =>
    match parseUnary (r.length + 1) r with
    | some (len, r') =>
      match takeN len r' with
      | some (s, []) => some (.strV s)
      | _ => none
    | _ => none
  | 3 :: r =>
    match parseUnary (r.length + 1) r with
    | some (n, r') =>
      match parseStrs n r' with
      | some (xs, []) => some (.strArr xs)
      | _ => none
    | _ => none
  | 4 :: r =>
    match parseUnary (r.length + 1) r with
    | some (n, r') =>
      match parseKVs n r' with
      | some (kvs, []) => some (.statusMap kvs)
      | _ => none
    | _ => none
  | _ => none

/-- Modelled from the spec: the compact binary decoder of the external
`flexbuffers` crate. -/
def binDecode : Bytes → Option SVal
  | 200 :: r => binDecodeBody r
  | _ => none

/-! ## The serde layer: types the program serializes -/

/-- A type with `Serialize`/`DeserializeOwned` implementations, modelled as a
pair of maps in and out of the serde data model. -/
class Serde (T : Type) where
  toS : T → SVal
  fromS : SVal → Option T

instance : Serde SVal := ⟨id, some⟩

/-- Rust `String` (used for cache identifiers) serializes as a string. -/
instance : Serde Bytes :=
  ⟨SVal.strV, fun v => match v with | .strV s => some s | _ => none⟩

/-- From `disk.rs`: `struct ManifestData { items: HashSet<String> }`, the Root
Manifest.  The hash set is modelled as a list of strings. -/
structure ManifestData where
  items : List Bytes
deriving DecidableEq, Repr

instance : Serde ManifestData :=
  ⟨fun m => .strArr m.items, fun v => match v with | .strArr xs => some ⟨xs⟩ | _ => none⟩

/-- From `disk.rs`: `struct ItemManifestData { values: HashMap<String, ValueStatus> }`,
the Item Manifest.  The hash map is modelled as an association list. -/
structure ItemManifestData where
  values : List (Bytes × ValueStatus)
deriving DecidableEq, Repr

instance : Serde ItemManifestData :=
  ⟨fun m => .statusMap m.values, fun v => match v with | .statusMap kvs => some ⟨kvs⟩ | _ => none⟩

/-- Decoding as `toml::from_str::<T>` does: parse the document, then
deserialize the parsed value into `T`. -/
def decodeToml (T : Type) [Serde T] (bs : Bytes) : Option T :=
  (tomlDecode bs).bind Serde.fromS

/-- Decoding as `flexbuffers::from_slice::<T>` does. -/
def decodeBin (T : Type) [Serde T] (bs : Bytes) : Option T :=
  (binDecode bs).bind Serde.fromS

/-- From `disk.rs`: `hash_serialize` computes the Sha256 digest of the
`flexbuffers` serialization of the object.  The external cryptographic hash is
modelled from the spec (a deterministic content addresser) by the injective
digest that keeps the serialized bytes themselves. -/
def hash_serialize {T : Type} [Serde T] (obj : T) : Bytes :=
  binEncode (Serde.toS obj)

/-- Modelled from the spec: `hex::encode` of the external `hex` crate, turning
each byte into two hexadecimal digit characters. -/
def hexEncode (bs : Bytes) : Bytes :=
  concatMap (fun b => [48 + b / 16, 48 + b % 16]) bs

/-! ## The filesystem, advisory locks, and the effect monad

A state carries the directories and files that exist, the advisory-lock table
(one entry per held lock, as file locks conflict across distinct handles even
within one process), an injected set of paths whose writes fail (modelling
disk faults), and a trace of observable lock/write events.  A computation
either returns, propagates an `Error` (I/O or UTF-8), panics (a Rust
`.unwrap()` failure), or blocks forever on a lock that can never be granted
in a single-process run. -/

/-- Observable events of a run. -/
inductive Ev where
  | lockedEx (p : Path)
  | lockedSh (p : Path)
  | unlockedEx (p : Path)
  | unlockedSh (p : Path)
  | wrote (p : Path)
deriving DecidableEq, Repr

/-- The model world state. -/
structure St where
  dirs : List Path
  files : List (Path × Bytes)
  exLocks : List Path
  shLocks : List Path
  writeFaults : List Path
  trace : List Ev
deriving DecidableEq, Repr

/-- Association-list lookup. -/
def alookup {κ β : Type} [DecidableEq κ] : List (κ × β) → κ → Option β
  | [], _ => none
  | (k, v) :: t, q => if k = q then some v else alookup t q

/-- Association-list update of an existing key. -/
def aupdate {κ β : Type} [DecidableEq κ] : List (κ × β) → κ → β → List (κ × β)
  | [], _, _ => []
  | (k, v) :: t, q, b => if k = q then (k, b) :: t else (k, v) :: aupdate t q b

/-- Removes one occurrence of an element. -/
def eraseOne {κ : Type} [DecidableEq κ] : List κ → κ → List κ
  | [], _ => []
  | q :: t, p => if q = p then t else q :: eraseOne t p

/-- Result of running a model computation. -/
inductive Res (α : Type) where
  | ok (a : α) (s : St)
  | ioErr (s : St)
  | panicked
  | blocked
deriving Repr

/-- The effect monad: state, error, panic and deadlock. -/
def M (α : Type) : Type := St → Res α

def M.bind {α β : Type} (m : M α) (f : α → M β) : M β := fun s =>
  match m s with
  | .ok a s' => f a s'
  | .ioErr s' => .ioErr s'
  | .panicked => .panicked
  | .blocked => .blocked

instance : Monad M where
  pure a := fun s => .ok a s
  bind := M.bind

/-- Propagation of an `Error` (`?` on a `crate::error::Result`). -/
def throwErr {α : Type} : M α := fun s => .ioErr s

/-- A Rust panic. -/
def panicM {α : Type} : M α := fun _ => .panicked

/-- Models `.unwrap()` on a `Result`: an error becomes a panic. -/
def unwrapR {α : Type} (m : M α) : M α := fun s =>
  match m s with
  | .ioErr _ => .panicked
  | r => r

/-- Models `.unwrap()` on an `Option`: absence becomes a panic. -/
def unwrapOpt {α : Type} : Option α → M α
  | some a => pure a
  | none => panicM

/-- Models `OpenOptions::new().read(true).write(true).create(true).open(path)`:
succeeds on an existing file, creates an empty file when the parent directory
exists, and fails with an I/O error otherwise (the parent is missing). -/
def openCreate (p : Path) : M Unit := fun s =>
  match alookup s.files p with
  | some _ => .ok () s
  | none =>
    if p.dropLast ∈ s.dirs then .ok () { s with files := (p, []) :: s.files }
    else .ioErr s

/-- Models `OpenOptions::new().read(true).open(path)`: fails if the file does
not exist. -/
def openRead (p : Path) : M Unit := fun s =>
  match alookup s.files p with
  | some _ => .ok () s
  | none => .ioErr s

/-- Models `fs2::lock_exclusive` (blocking): granted only when no other handle
holds any lock on the path; in a single-process run a conflicting lock held by
this very execution means the acquisition blocks forever. -/
def lockEx (p : Path) : M Unit := fun s =>
  if p ∈ s.exLocks ∨ p ∈ s.shLocks then .blocked
  else .ok () { s with exLocks := p :: s.exLocks, trace := s.trace ++ [.lockedEx p] }

/-- Models `fs2::lock_shared` (blocking): granted unless an exclusive lock on
the path is held. -/
def lockSh (p : Path) : M Unit := fun s =>
  if p ∈ s.exLocks then .blocked
  else .ok () { s with shLocks := p :: s.shLocks, trace := s.trace ++ [.lockedSh p] }

/-- Releases an exclusive lock (unlock or handle drop). -/
def unlockEx (p : Path) : M Unit := fun s =>
  .ok () { s with exLocks := eraseOne s.exLocks p, trace := s.trace ++ [.unlockedEx p] }

/-- Releases one shared lock (unlock or handle drop). -/
def unlockSh (p : Path) : M Unit := fun s =>
  .ok () { s with shLocks := eraseOne s.shLocks p, trace := s.trace ++ [.unlockedSh p] }

/-- Reads the whole content of an open file. -/
def readRaw (p : Path) : M Bytes := fun s =>
  match alookup s.files p with
  | some c => .ok c s
  | none => .ioErr s

/-- Writes bytes to an open file (the caller computes the full new content);
fails on paths with an injected write fault. -/
def writeRaw (p : Path) (b : Bytes) : M Unit := fun s =>
  if p ∈ s.writeFaults then .ioErr s
  else
    match alookup s.files p with
    | some _ => .ok () { s with files := aupdate s.files p b, trace := s.trace ++ [.wrote p] }
    | none => .ioErr s

/-- Overwriting from the start of the file without truncating, as a rewind
followed by `write_all` does: the new bytes replace a prefix, any longer old
tail survives. -/
def overwriteBytes (old new : Bytes) : Bytes := new ++ old.drop new.length

/-! ## The locked-file primitive, from `disk.rs` -/

/-- From `disk.rs`: `enum Format { Toml, Binary }`. -/
inductive Format where
  | toml
  | binary
deriving DecidableEq, Repr

/-- The encoder `Format::write` selects for its format. -/
def Format.encode : Format → SVal → Bytes
  | .toml => tomlEncode
  | .binary => binEncode

/-- From `disk.rs`: `Format::read`.  Faithful to the source bug: the content
is read with `file.read(&mut contents)` into a freshly created empty buffer,
which reads zero bytes, so the decoders only ever see the empty byte string.
The `Toml` arm checks UTF-8 validity first (`std::str::from_utf8(..)?`,
propagating failure as an error), the `Binary` arm decodes directly. -/
def Format.readF (fmt : Format) (T : Type) [Serde T] : M (Option T) := do
  let contents : Bytes := []
  match fmt with
  | .toml =>
    if utf8Valid contents then pure (decodeToml T contents) else throwErr
  | .binary => pure (decodeBin T contents)

/-- A file held under an exclusive advisory lock, from `disk.rs`
(`struct WriteLockedFile { path, file, format }`).  The open handle's cursor
position is part of the model handle. -/
structure WriteLockedFile where
  path : Path
  format : Format
  pos : Nat
deriving DecidableEq, Repr

/-- A file held under a shared advisory lock, from `disk.rs`
(`struct ReadLockedFile { path, file, format }`).  `locked` records whether
this handle still holds its shared lock (false after `unlock`), so that a
drop of the handle releases the lock at most once. -/
structure ReadLockedFile where
  path : Path
  format : Format
  pos : Nat
  locked : Bool
deriving DecidableEq, Repr

/-- From `disk.rs`: `WriteLockedFile::new`: open with read+write+create, then
block until the exclusive lock is acquired. -/
def WriteLockedFile.new (p : Path) (format : Format) : M WriteLockedFile := do
  openCreate p
  lockEx p
  pure ⟨p, format, 0⟩

def WriteLockedFile.new_toml (p : Path) : M WriteLockedFile :=
  WriteLockedFile.new p .toml

def WriteLockedFile.new_binary (p : Path) : M WriteLockedFile :=
  WriteLockedFile.new p .binary

/-- Dropping a `WriteLockedFile` closes the file, releasing its exclusive
lock. -/
def dropW (f : WriteLockedFile) : M Unit := unlockEx f.path

/-- Dropping a `ReadLockedFile` releases its shared lock if still held. -/
def dropR (f : ReadLockedFile) : M Unit :=
  if f.locked then unlockSh f.path else pure ()

/-- From `disk.rs`: `WriteLockedFile::read`.  Rewinds, reads the content to a
string (an I/O error if the bytes are not valid UTF-8) and decodes it as TOML
regardless of the handle's format, returning `none` on decode failure. -/
def WriteLockedFile.read (T : Type) [Serde T] (f : WriteLockedFile) :
    M (Option T × WriteLockedFile) := do
  let content ← readRaw f.path
  if utf8Valid content then
    pure (decodeToml T content, ⟨f.path, f.format, content.length⟩)
  else throwErr

/-- From `disk.rs`: `WriteLockedFile::write`: rewind, then write the encoding
selected by the handle's format from the start of the file. -/
def WriteLockedFile.write {T : Type} [Serde T] (f : WriteLockedFile) (data : T) :
    M WriteLockedFile := do
  let old ← readRaw f.path
  let enc := f.format.encode (Serde.toS data)
  writeRaw f.path (overwriteBytes old enc)
  pure ⟨f.path, f.format, enc.length⟩

/-- From `disk.rs`: `WriteLockedFile::read_or_initialize`.  Faithful to the
source: the write of the freshly initialized value is followed by `.unwrap()`,
so an I/O fault there panics instead of propagating. -/
def WriteLockedFile.read_or_init (T : Type) [Serde T] (f : WriteLockedFile)
    (init : Unit → T) : M (T × WriteLockedFile) := do
  let (r, f) ← WriteLockedFile.read T f
  match r with
  | some data => pure (data, f)
  | none =>
    let data := init ()
    let f ← unwrapR (f.write data)
    pure (data, f)

/-- From `disk.rs`: `ReadLockedFile::new`: open read-only (an I/O error if the
file does not exist), then block until the shared lock is acquired. -/
def ReadLockedFile.new (p : Path) (format : Format) : M ReadLockedFile := do
  openRead p
  lockSh p
  pure ⟨p, format, 0, true⟩

def ReadLockedFile.new_toml (p : Path) : M ReadLockedFile :=
  ReadLockedFile.new p .toml

def ReadLockedFile.new_binary (p : Path) : M ReadLockedFile :=
  ReadLockedFile.new p .binary

/-- From `disk.rs`: `WriteLockedFile::downgrade`: drop the file (releasing the
exclusive lock), then acquire a fresh shared lock.  Not atomic. -/
def WriteLockedFile.downgrade (f : WriteLockedFile) : M ReadLockedFile := do
  unlockEx f.path
  ReadLockedFile.new f.path f.format

/-- From `disk.rs`: `ReadLockedFile::read`.  Reads from the handle's current
cursor position (no rewind) to a string (an I/O error on invalid UTF-8) and
decodes as TOML regardless of the handle's format. -/
def ReadLockedFile.read (T : Type) [Serde T] (f : ReadLockedFile) :
    M (Option T × ReadLockedFile) := do
  let content ← readRaw f.path
  let chunk := content.drop f.pos
  if utf8Valid chunk then
    pure (decodeToml T chunk, ⟨f.path, f.format, content.length, f.locked⟩)
  else throwErr

/-- From `disk.rs`: `ReadLockedFile::read_or_initialize`.  Faithful to the
source order of operations: on absence it unlocks its shared lock, takes a
temporary exclusive lock, re-checks, and in the still-absent case writes the
default and then opens a fresh shared-locked handle while the temporary
exclusive lock is still held (the `write_lock` binding is dropped only at the
end of its scope). -/
def ReadLockedFile.read_or_init (T : Type) [Serde T] (f : ReadLockedFile)
    (init : Unit → T) : M (T × ReadLockedFile) := do
  let (r, f) ← ReadLockedFile.read T f
  match r with
  | some data => pure (data, f)
  | none =>
    unlockSh f.path
    let f : ReadLockedFile := ⟨f.path, f.format, f.pos, false⟩
    let write_lock ← WriteLockedFile.new f.path f.format
    let (r2, write_lock) ← WriteLockedFile.read T write_lock
    match r2 with
    | some data =>
      dropW write_lock
      pure (data, f)
    | none =>
      let data := init ()
      let write_lock ← write_lock.write data
      let f ← ReadLockedFile.new f.path f.format
      let (r3, f) ← ReadLockedFile.read T f
      let v ← unwrapOpt r3
      dropW write_lock
      pure (v, f)

/-- From `disk.rs`: `ReadLockedFile::upgrade`: drop the file (releasing the
shared lock if held), then acquire an exclusive lock.  Not atomic. -/
def ReadLockedFile.upgrade (f : ReadLockedFile) : M WriteLockedFile := do
  dropR f
  WriteLockedFile.new f.path f.format

/-! ## The Disk Cache, from `disk.rs`, and the Cache Handle, from `lib.rs` -/

/-- From `disk.rs`: `MANIFEST_NAME`, the ASCII bytes of `Cache.toml`. -/
def MANIFEST_NAME : Bytes := [67, 97, 99, 104, 101, 46, 116, 111, 109, 108]

/-- From `disk.rs`: `ITEM_MANIFEST_NAME`, the ASCII bytes of `CacheItem.toml`. -/
def ITEM_MANIFEST_NAME : Bytes :=
  [67, 97, 99, 104, 101, 73, 116, 101, 109, 46, 116, 111, 109, 108]

/-- Models `std::fs::create_dir_all`. -/
def create_dir_all (p : Path) : M Unit := fun s =>
  if p ∈ s.dirs then .ok () s else .ok () { s with dirs := p :: s.dirs }

/-- Models `std::path::Path::exists` for a file. -/
def fileExists (p : Path) : M Bool := fun s =>
  .ok (alookup s.files p).isSome s

/-- From `disk.rs`: `struct DiskCache { root, manifest_path }`. -/
structure DiskCache where
  root : Path
  manifest_path : Path
deriving DecidableEq, Repr

/-- Default root manifest contents (`ManifestData::default`). -/
def ManifestData.default : ManifestData := ⟨[]⟩

/-- Default item manifest contents (`ItemManifestData::default`). -/
def ItemManifestData.default : ItemManifestData := ⟨[]⟩

/-- From `disk.rs`: `DiskCache::new`: create the cache root directory (and only
it), then, if the root manifest file does not exist yet, create it via a
temporary exclusively-locked handle that is dropped immediately (`let _ =`). -/
def DiskCache.new (root : Path) : M DiskCache := do
  let manifest_path := root ++ [MANIFEST_NAME]
  create_dir_all root
  let cache : DiskCache := ⟨root, manifest_path⟩
  let ex ← fileExists cache.manifest_path
  if ex then pure cache
  else do
    let f ← WriteLockedFile.new_toml cache.manifest_path
    dropW f
    pure cache

/-- From `disk.rs`: `enum Generate { Yes(WriteLockedFile), No(ReadLockedFile) }`:
whether the caller must generate (holding the value file's exclusive lock) or
may read (holding a shared lock). -/
inductive Generate where
  | yes (f : WriteLockedFile)
  | no (f : ReadLockedFile)
deriving DecidableEq, Repr

/-- Dropping a `Generate` drops the locked file it carries. -/
def dropG : Generate → M Unit
  | .yes f => dropW f
  | .no f => dropR f

/-- From `lib.rs`: `struct CacheHandle<V, E>(Arc<OnceCell<Result<V, E>>>)`:
a write-once, shareable container; `none` models the empty `OnceCell`. -/
structure CacheHandle (V E : Type) where
  cell : Option (Except E V)

/-- From `lib.rs`: `CacheHandle::poll`: the entry if available, else `None`,
without blocking. -/
def CacheHandle.poll {V E : Type} (h : CacheHandle V E) : Option (Except E V) :=
  h.cell

/-- From `disk.rs`: `DiskCache::check_existing_item`.  Opens and exclusively
locks the bucket's item manifest, loads or initializes it, and decides from
the persisted status of the key's digest whether the caller must generate.
Faithful to the source: in the `Vacant` arm the value file is locked before
the updated manifest is written; in the `Evicting` arm the status is updated
to `Loading` only in the in-memory copy (`*o.into_mut() = Loading`), which is
never written back to disk.  The `item_manifest` handle is dropped at the end
of the scope. -/
def DiskCache.check_existing_item {K : Type} [Serde K] (cache : DiskCache)
    (item_path : Path) (key : K) : M Generate := do
  let item_manifest_path := item_path ++ [ITEM_MANIFEST_NAME]
  let item_manifest ← WriteLockedFile.new_toml item_manifest_path
  let key_hash := hexEncode (hash_serialize key)
  let value_path := item_path ++ [key_hash]
  let (data, item_manifest) ←
    WriteLockedFile.read_or_init ItemManifestData item_manifest (fun _ => ItemManifestData.default)
  match alookup data.values key_hash with
  | none =>
    let data : ItemManifestData := ⟨(key_hash, .Loading) :: data.values⟩
    let value_file ← WriteLockedFile.new_binary value_path
    let item_manifest ← item_manifest.write data
    dropW item_manifest
    pure (.yes value_file)
  | some .InUse =>
    let r ← ReadLockedFile.new_binary value_path
    dropW item_manifest
    pure (.no r)
  | some .Loading =>
    let r ← ReadLockedFile.new_binary value_path
    dropW item_manifest
    pure (.no r)
  | some .Evicting =>
    let data : ItemManifestData := ⟨aupdate data.values key_hash .Loading⟩
    let w ← WriteLockedFile.new_binary value_path
    dropW item_manifest
    pure (.yes w)

/-- From `disk.rs`: `DiskCache::generate`.  Exclusively locks the root
manifest, loads or initializes it, registers the identifier on first sight,
runs the per-key state machine, and returns a Cache Handle.  Faithful to the
source: the `generate_fn` and `panic_error` parameters are never used, the
`Generate` decision returned by `check_existing_item` is discarded (and its
lock dropped) at the end of the `?;` statement, and the returned handle is a
freshly created empty `OnceCell` that nothing ever settles. -/
def DiskCache.generate {K V E : Type} [Serde K] (cache : DiskCache) (id : Bytes) (key : K)
    (generate_fn : K → Except E V) (panic_error : E) : M (CacheHandle V E) := do
  let manifest ← WriteLockedFile.new_toml cache.manifest_path
  let id_hash := hash_serialize id
  let item_path := cache.root ++ [hexEncode id_hash]
  let (data, manifest) ←
    WriteLockedFile.read_or_init ManifestData manifest (fun _ => ManifestData.default)
  if id ∈ data.items then do
    let g ← DiskCache.check_existing_item cache item_path key
    dropG g
    dropW manifest
    pure ⟨none⟩
  else do
    let data : ManifestData := ⟨id :: data.items⟩
    let manifest ← manifest.write data
    let g ← DiskCache.check_existing_item cache item_path key
    dropG g
    dropW manifest
    pure ⟨none⟩


/-! ## Observers on run results -/

/-- The returned value of a completed run, if any. -/
def Res.val {α : Type} : Res α → Option α
  | .ok a _ => some a
  | _ => none

/-- The final state of a run that completed or aborted with an error. -/
def Res.stOf {α : Type} : Res α → Option St
  | .ok _ s => some s
  | .ioErr s => some s
  | _ => none

/-- Whether a run aborted with a propagated I/O error. -/
def Res.isIoErr {α : Type} : Res α → Bool
  | .ioErr _ => true
  | _ => false

/-- Whether a run completed or aborted with an error, as opposed to panicking
or blocking forever. -/
def Res.completes {α : Type} : Res α → Bool
  | .ok _ _ => true
  | .ioErr _ => true
  | _ => false

/-- Whether a run panicked. -/
def Res.isPanic {α : Type} : Res α → Bool
  | .panicked => true
  | _ => false

/-- Whether a run blocked forever on a lock acquisition. -/
def Res.isBlocked {α : Type} : Res α → Bool
  | .blocked => true
  | _ => false

/-- Index of the first occurrence of an event in a trace. -/
def idxOfEv : List Ev → Ev → Option Nat
  | [], _ => none
  | e :: t, q => if e = q then some 0 else (idxOfEv t q).map (· + 1)

/-- Whether the first occurrence of `a` comes strictly before the first
occurrence of `b` in the trace. -/
def precedesB (tr : List Ev) (a b : Ev) : Bool :=
  match idxOfEv tr a, idxOfEv tr b with
  | some i, some j => decide (i < j)
  | _, _ => false

/-! ## Concrete scenario: a cache at root `r`, identifier `t`, unit key -/

/-- The empty starting world. -/
def st0 : St := ⟨[], [], [], [], [], []⟩

/-- Example cache root directory. -/
def exRoot : Path := [[114]]

/-- Example identifier (the string `t`). -/
def exId : Bytes := [116]

/-- Example key: the unit value, as in the repository's own test. -/
def exKey : SVal := SVal.unitV

/-- Example generator function. -/
def exGen : SVal → Except Unit SVal := fun _ => Except.ok (SVal.natV 5)

/-- The cache value `DiskCache::new(exRoot)` constructs. -/
def exCache : DiskCache := ⟨exRoot, exRoot ++ [MANIFEST_NAME]⟩

/-- The root manifest path of the example cache. -/
def exManifestPath : Path := exRoot ++ [MANIFEST_NAME]

/-- The bucket directory of the example identifier. -/
def exBucket : Path := exRoot ++ [hexEncode (hash_serialize exId)]

/-- The item manifest path of the example bucket. -/
def exItemManifestPath : Path := exBucket ++ [ITEM_MANIFEST_NAME]

/-- The digest of the example key. -/
def exKeyHash : Bytes := hexEncode (hash_serialize exKey)

/-- The value-file path of the example key. -/
def exValuePath : Path := exBucket ++ [exKeyHash]

/-- A world where the cache root and the bucket directory exist, the root
manifest already lists the example identifier, and the item manifest is
initialized but has no entry for the example key. -/
def stFresh : St :=
  ⟨[exRoot, exBucket],
   [(exManifestPath, tomlEncode (Serde.toS (ManifestData.mk [exId]))),
    (exItemManifestPath, tomlEncode (Serde.toS (ItemManifestData.mk [])))],
   [], [], [], []⟩

/-- A standalone file path used by the locked-file theorems. -/
def pEx : Path := [[112]]

/-- Like `stFresh`, but the item manifest records the example key with status
`Evicting`. -/
def stEvicting : St :=
  ⟨[exRoot, exBucket],
   [(exManifestPath, tomlEncode (Serde.toS (ManifestData.mk [exId]))),
    (exItemManifestPath,
      tomlEncode (Serde.toS (ItemManifestData.mk [(exKeyHash, ValueStatus.Evicting)])))],
   [], [], [], []⟩

/-- Specification of the absent-key arm of the per-key state machine, as the
code realizes it: starting from a bucket whose item manifest holds `vals`
without the key's digest, `check_existing_item` returns "must generate"
carrying the exclusively-locked value file, the persisted item manifest gains
the digest with status `Loading`, and the trace shows the value-file lock
acquired before the manifest write. -/
def AbsentKeySpec (c : DiskCache) (ip : Path) (key : SVal)
    (vals : List (Bytes × ValueStatus)) (dirs : List Path) : Prop :=
  DiskCache.check_existing_item c ip key
      ⟨ip :: dirs,
       [(ip ++ [ITEM_MANIFEST_NAME], tomlEncode (Serde.toS (ItemManifestData.mk vals)))],
       [], [], [], []⟩
    = Res.ok (Generate.yes ⟨ip ++ [hexEncode (hash_serialize key)], Format.binary, 0⟩)
        ⟨ip :: dirs,
         [(ip ++ [hexEncode (hash_serialize key)], []),
          (ip ++ [ITEM_MANIFEST_NAME],
            tomlEncode (Serde.toS (ItemManifestData.mk
              ((hexEncode (hash_serialize key), ValueStatus.Loading) :: vals))))],
         [ip ++ [hexEncode (hash_serialize key)]], [], [],
         [Ev.lockedEx (ip ++ [ITEM_MANIFEST_NAME]),
          Ev.lockedEx (ip ++ [hexEncode (hash_serialize key)]),
          Ev.wrote (ip ++ [ITEM_MANIFEST_NAME]),
          Ev.unlockedEx (ip ++ [ITEM_MANIFEST_NAME])]⟩
  ∧ decodeToml ItemManifestData (tomlEncode (Serde.toS (ItemManifestData.mk
      ((hexEncode (hash_serialize key), ValueStatus.Loading) :: vals))))
    = some ⟨(hexEncode (hash_serialize key), ValueStatus.Loading) :: vals⟩

/-- Specification of corruption recovery, as the code realizes it: a locked
read of a valid-UTF-8 but undecodable file reports absence rather than an
error (for both lock kinds), and a `generate` call whose root manifest has
such content completes, reinitializing the manifest (the two writes to it in
the trace) and proceeding through the absent-key state machine. -/
def CorruptRecoverySpec (root : Path) (id : Bytes) (key : SVal)
    (g : SVal → Except Unit SVal) (e : Unit) (p : Path) (fmt : Format) (pos : Nat)
    (dirs : List Path) (tr : List Ev) (content : Bytes) : Prop :=
  WriteLockedFile.read ManifestData ⟨p, fmt, pos⟩ ⟨dirs, [(p, content)], [p], [], [], tr⟩
      = Res.ok (none, ⟨p, fmt, content.length⟩) ⟨dirs, [(p, content)], [p], [], [], tr⟩
  ∧ ReadLockedFile.read ManifestData ⟨p, fmt, 0, true⟩ ⟨dirs, [(p, content)], [], [p], [], tr⟩
      = Res.ok (none, ⟨p, fmt, content.length, true⟩) ⟨dirs, [(p, content)], [], [p], [], tr⟩
  ∧ (Res.val (DiskCache.generate ⟨root, root ++ [MANIFEST_NAME]⟩ id key g e
      ⟨[root, root ++ [hexEncode (hash_serialize id)]],
       [(root ++ [MANIFEST_NAME], content),
        ((root ++ [hexEncode (hash_serialize id)]) ++ [ITEM_MANIFEST_NAME],
          tomlEncode (Serde.toS (ItemManifestData.mk [])))],
       [], [], [], []⟩)).map CacheHandle.poll = some none
  ∧ (Res.stOf (DiskCache.generate ⟨root, root ++ [MANIFEST_NAME]⟩ id key g e
      ⟨[root, root ++ [hexEncode (hash_serialize id)]],
       [(root ++ [MANIFEST_NAME], content),
        ((root ++ [hexEncode (hash_serialize id)]) ++ [ITEM_MANIFEST_NAME],
          tomlEncode (Serde.toS (ItemManifestData.mk [])))],
       [], [], [], []⟩)).map St.trace
    = some [Ev.lockedEx (root ++ [MANIFEST_NAME]),
        Ev.wrote (root ++ [MANIFEST_NAME]),
        Ev.wrote (root ++ [MANIFEST_NAME]),
        Ev.lockedEx ((root ++ [hexEncode (hash_serialize id)]) ++ [ITEM_MANIFEST_NAME]),
        Ev.lockedEx ((root ++ [hexEncode (hash_serialize id)])
          ++ [hexEncode (hash_serialize key)]),
        Ev.wrote ((root ++ [hexEncode (hash_serialize id)]) ++ [ITEM_MANIFEST_NAME]),
        Ev.unlockedEx ((root ++ [hexEncode (hash_serialize id)]) ++ [ITEM_MANIFEST_NAME]),
        Ev.unlockedEx ((root ++ [hexEncode (hash_serialize id)])
          ++ [hexEncode (hash_serialize key)]),
        Ev.unlockedEx (root ++ [MANIFEST_NAME])]

theorem concatMap_nil {α β : Type} (f : α → List β) : concatMap f [] = [] := rfl

theorem concatMap_cons {α β : Type} (f : α → List β) (a : α) (t : List α) :
    concatMap f (a :: t) = f a ++ concatMap f t := rfl

theorem parseUnary_replicate (n : Nat) (r : Bytes) :
    ∀ f, n < f → parseUnary f (List.replicate n 49 ++ 59 :: r) = some (n, r) := by
  induction n with
  | zero =>
    intro f hf
    match f, hf with
    | f + 1, _ => simp [parseUnary]
  | succ n ih =>
    intro f hf
    match f, hf with
    | f + 1, hf =>
      rw [List.replicate_succ]
      simp [parseUnary, ih f (by omega)]

theorem escChar_length_pos (c : Nat) : 0 < (escChar c).length := by
  rw [escChar]; split <;> simp

theorem parseLitAux_concatMap (s : Bytes) :
    ∀ acc r f, (concatMap escChar s).length < f →
      parseLitAux f (concatMap escChar s ++ 34 :: r) acc = some (acc.reverse ++ s, r) := by
  induction s with
  | nil =>
    intro acc r f hf
    match f, hf with
    | f + 1, _ => simp [concatMap, parseLitAux]
  | cons c t ih =>
    intro acc r f hf
    rw [concatMap_cons] at hf ⊢
    by_cases hc : c < 128 ∧ c ≠ 34 ∧ c ≠ 92
    · rw [escChar, if_pos hc] at hf ⊢
      match f, hf with
      | f + 1, hf =>
        have ht : (concatMap escChar t).length < f := by
          simp at hf; omega
        simp [parseLitAux, hc.1, hc.2.1, hc.2.2, ih (c :: acc) r f ht]
    · rw [escChar, if_neg hc] at hf ⊢
      match f, hf with
      | f + 1, hf =>
        have hc' : c < f := by
          simp only [List.length_append, List.length_cons, List.length_replicate,
            List.length_nil] at hf
          omega
        have ht : (concatMap escChar t).length < f := by
          simp only [List.length_append, List.length_cons, List.length_replicate,
            List.length_nil] at hf
          omega
        simp only [List.cons_append, List.append_assoc, List.singleton_append]
        simp [parseLitAux, parseUnary_replicate c _ f hc', ih (c :: acc) r f ht]

theorem parseStatus_statusTag (v : ValueStatus) (r : Bytes) :
    parseStatus (statusTag v ++ r) = some (v, r) := by
  cases v <;> rfl

theorem strLit_shape (s : Bytes) (r : Bytes) :
    strLit s ++ r = 34 :: (concatMap escChar s ++ 34 :: r) := by
  simp [strLit]

theorem parseStrList_concatMap (xs : List Bytes) :
    ∀ acc r f, (concatMap strLit xs).length < f →
      parseStrList f (concatMap strLit xs ++ 93 :: r) acc = some (acc.reverse ++ xs, r) := by
  induction xs with
  | nil =>
    intro acc r f hf
    match f, hf with
    | f + 1, _ => simp [concatMap, parseStrList]
  | cons x t ih =>
    intro acc r f hf
    rw [concatMap_cons] at hf ⊢
    match f, hf with
    | f + 1, hf =>
      have hxlen : (strLit x).length = (concatMap escChar x).length + 2 := by simp [strLit]
      have hx : (concatMap escChar x).length < f := by
        rw [List.length_append, hxlen] at hf; omega
      have ht : (concatMap strLit t).length < f := by
        rw [List.length_append, hxlen] at hf; omega
      rw [List.append_assoc, strLit_shape]
      simp [parseStrList, parseLitAux_concatMap x [] _ f hx, ih (x :: acc) r f ht]

theorem parseStatusList_concatMap (kvs : List (Bytes × ValueStatus)) :
    ∀ acc r f, (concatMap (fun kv => strLit kv.1 ++ statusTag kv.2) kvs).length < f →
      parseStatusList f (concatMap (fun kv => strLit kv.1 ++ statusTag kv.2) kvs ++ 125 :: r) acc
        = some (acc.reverse ++ kvs, r) := by
  induction kvs with
  | nil =>
    intro acc r f hf
    match f, hf with
    | f + 1, _ => simp [concatMap, parseStatusList]
  | cons kv t ih =>
    intro acc r f hf
    rw [concatMap_cons] at hf ⊢
    match f, hf with
    | f + 1, hf =>
      have hxlen : (strLit kv.1).length = (concatMap escChar kv.1).length + 2 := by simp [strLit]
      have hx : (concatMap escChar kv.1).length < f := by
        simp only [List.length_append, hxlen] at hf; omega
      have ht : (concatMap (fun kv => strLit kv.1 ++ statusTag kv.2) t).length < f := by
        simp only [List.length_append, hxlen] at hf; omega
      simp only [List.append_assoc]
      rw [strLit_shape]
      simp [parseStatusList,
        parseLitAux_concatMap kv.1 []
          (statusTag kv.2 ++
            (concatMap (fun kv : Bytes × ValueStatus => strLit kv.1 ++ statusTag kv.2) t
              ++ 125 :: r))
          f hx,
        parseStatus_statusTag, ih (kv :: acc) r f ht]

/-- Round trip of the model structured-text encoding. -/
theorem tomlDecode_tomlEncode (v : SVal) : tomlDecode (tomlEncode v) = some v := by
  cases v with
  | unitV => rfl
  | natV n =>
    rw [tomlEncode]
    show tomlDecode (110 :: (List.replicate n 49 ++ [59])) = _
    rw [tomlDecode]
    rw [show List.replicate n 49 ++ [59] = List.replicate n 49 ++ 59 :: [] from rfl]
    rw [parseUnary_replicate n [] _ (by simp; omega)]
  | strV s =>
    rw [tomlEncode]
    show tomlDecode (34 :: (concatMap escChar s ++ [34])) = _
    rw [tomlDecode]
    rw [show concatMap escChar s ++ [34] = concatMap escChar s ++ 34 :: [] from rfl]
    have hfuel : (concatMap escChar s).length < (concatMap escChar s ++ 34 :: []).length + 1 := by
      simp only [List.length_append, List.length_cons, List.length_nil]
      omega
    rw [parseLitAux_concatMap s [] [] _ hfuel]
    simp
  | strArr xs =>
    rw [tomlEncode]
    show tomlDecode (91 :: (concatMap strLit xs ++ [93])) = _
    rw [tomlDecode]
    rw [show concatMap strLit xs ++ [93] = concatMap strLit xs ++ 93 :: [] from rfl]
    have hfuel : (concatMap strLit xs).length < (concatMap strLit xs ++ 93 :: []).length + 1 := by
      simp only [List.length_append, List.length_cons, List.length_nil]
      omega
    rw [parseStrList_concatMap xs [] [] _ hfuel]
    simp
  | statusMap kvs =>
    rw [tomlEncode]
    show tomlDecode (123 :: (concatMap (fun kv => strLit kv.1 ++ statusTag kv.2) kvs ++ [125])) = _
    rw [tomlDecode]
    rw [show concatMap (fun kv => strLit kv.1 ++ statusTag kv.2) kvs ++ [125]
      = concatMap (fun kv => strLit kv.1 ++ statusTag kv.2) kvs ++ 125 :: [] from rfl]
    have hfuel : (concatMap (fun kv : Bytes × ValueStatus =>
          strLit kv.1 ++ statusTag kv.2) kvs).length <
        (concatMap (fun kv : Bytes × ValueStatus => strLit kv.1 ++ statusTag kv.2) kvs
          ++ 125 :: []).length + 1 := by
      simp only [List.length_append, List.length_cons, List.length_nil]
      omega
    rw [parseStatusList_concatMap kvs [] [] _ hfuel]
    simp

theorem takeN_append (s : Bytes) (r : Bytes) : takeN s.length (s ++ r) = some (s, r) := by
  induction s with
  | nil => rfl
  | cons c t ih => simp [takeN, ih]

theorem lenPrefixed_shape (s : Bytes) (r : Bytes) :
    lenPrefixed s ++ r = List.replicate s.length 49 ++ 59 :: (s ++ r) := by
  simp [lenPrefixed]

theorem parseStrs_concatMap (xs : List Bytes) :
    ∀ r, parseStrs xs.length (concatMap lenPrefixed xs ++ r) = some (xs, r) := by
  induction xs with
  | nil => intro r; simp [concatMap, parseStrs]
  | cons x t ih =>
    intro r
    rw [concatMap_cons, List.length_cons]
    rw [List.append_assoc, lenPrefixed_shape]
    have hfuel : x.length <
        (List.replicate x.length 49 ++ 59 :: (x ++ (concatMap lenPrefixed t ++ r))).length + 1 := by
      simp only [List.length_append, List.length_cons, List.length_replicate]; omega
    simp only [parseStrs]
    rw [parseUnary_replicate x.length _ _ hfuel]
    simp [takeN_append x, ih r]

theorem parseStatusByte_statusByte (v : ValueStatus) (r : Bytes) :
    parseStatusByte (statusByte v :: r) = some (v, r) := by
  cases v <;> rfl

theorem parseKVs_concatMap (kvs : List (Bytes × ValueStatus)) :
    ∀ r, parseKVs kvs.length
        (concatMap (fun kv => lenPrefixed kv.1 ++ [statusByte kv.2]) kvs ++ r) = some (kvs, r) := by
  induction kvs with
  | nil => intro r; simp [concatMap, parseKVs]
  | cons kv t ih =>
    intro r
    rw [concatMap_cons, List.length_cons]
    rw [List.append_assoc, List.append_assoc, List.singleton_append, lenPrefixed_shape]
    have hfuel : kv.1.length < (List.replicate kv.1.length 49 ++ 59 :: (kv.1 ++ (statusByte kv.2 ::
        (concatMap (fun kv : Bytes × ValueStatus =>
          lenPrefixed kv.1 ++ [statusByte kv.2]) t ++ r)))).length + 1 := by
      simp only [List.length_append, List.length_cons, List.length_replicate]; omega
    simp only [parseKVs]
    rw [parseUnary_replicate kv.1.length _ _ hfuel]
    simp [takeN_append kv.1, parseStatusByte_statusByte, ih r]

/-- Round trip of the model compact binary encoding. -/
theorem binDecode_binEncode (v : SVal) : binDecode (binEncode v) = some v := by
  rw [binEncode, binDecode]
  cases v with
  | unitV => rfl
  | natV n =>
    rw [binEncodeBody]
    show binDecodeBody (1 :: (List.replicate n 49 ++ [59])) = _
    rw [binDecodeBody]
    rw [show List.replicate n 49 ++ [59] = List.replicate n 49 ++ 59 :: [] from rfl]
    have hfuel : n < (List.replicate n 49 ++ 59 :: []).length + 1 := by
      simp only [List.length_append, List.length_cons, List.length_nil, List.length_replicate]
      omega
    rw [parseUnary_replicate n [] _ hfuel]
  | strV s =>
    rw [binEncodeBody]
    show binDecodeBody (2 :: (List.replicate s.length 49 ++ 59 :: s)) = _
    rw [binDecodeBody]
    have hfuel : s.length < (List.replicate s.length 49 ++ 59 :: s).length + 1 := by
      simp only [List.length_append, List.length_cons, List.length_replicate]
      omega
    rw [parseUnary_replicate s.length s _ hfuel]
    have hT : takeN s.length s = some (s, []) := by
      have h := takeN_append s []
      rw [List.append_nil] at h
      exact h
    simp [hT]
  | strArr xs =>
    rw [binEncodeBody]
    show binDecodeBody (3 :: (List.replicate xs.length 49 ++ 59 :: concatMap lenPrefixed xs)) = _
    rw [binDecodeBody]
    have hfuel : xs.length <
        (List.replicate xs.length 49 ++ 59 :: concatMap lenPrefixed xs).length + 1 := by
      simp only [List.length_append, List.length_cons, List.length_replicate]
      omega
    rw [parseUnary_replicate xs.length _ _ hfuel]
    have hP : parseStrs xs.length (concatMap lenPrefixed xs) = some (xs, []) := by
      have h := parseStrs_concatMap xs []
      rw [List.append_nil] at h
      exact h
    simp [hP]
  | statusMap kvs =>
    rw [binEncodeBody]
    show binDecodeBody (4 :: (List.replicate kvs.length 49 ++
      59 :: concatMap (fun kv => lenPrefixed kv.1 ++ [statusByte kv.2]) kvs)) = _
    rw [binDecodeBody]
    have hfuel : kvs.length < (List.replicate kvs.length 49 ++
        59 :: concatMap (fun kv : Bytes × ValueStatus =>
          lenPrefixed kv.1 ++ [statusByte kv.2]) kvs).length + 1 := by
      simp only [List.length_append, List.length_cons, List.length_replicate]
      omega
    rw [parseUnary_replicate kvs.length _ _ hfuel]
    have hP : parseKVs kvs.length
        (concatMap (fun kv : Bytes × ValueStatus => lenPrefixed kv.1 ++ [statusByte kv.2]) kvs)
        = some (kvs, []) := by
      have h := parseKVs_concatMap kvs []
      rw [List.append_nil] at h
      exact h
    simp [hP]

theorem utf8Valid_cons (c : Nat) (t : Bytes) :
    utf8Valid (c :: t) = if c < 128 then utf8Valid t else false := rfl

theorem utf8Valid_append (a b : Bytes) : utf8Valid (a ++ b) = (utf8Valid a && utf8Valid b) := by
  induction a with
  | nil => simp [utf8Valid]
  | cons c t ih =>
    rw [List.cons_append, utf8Valid_cons, utf8Valid_cons]
    by_cases hc : c < 128
    · rw [if_pos hc, if_pos hc, ih]
    · rw [if_neg hc, if_neg hc]; rfl

theorem utf8Valid_replicate49 (n : Nat) : utf8Valid (List.replicate n 49) = true := by
  induction n with
  | zero => rfl
  | succ n ih => rw [List.replicate_succ, utf8Valid_cons]; simp [ih]

theorem utf8Valid_escChar (c : Nat) : utf8Valid (escChar c) = true := by
  by_cases hc : c < 128 ∧ c ≠ 34 ∧ c ≠ 92
  · rw [escChar, if_pos hc, utf8Valid_cons, if_pos hc.1]; rfl
  · rw [escChar, if_neg hc]
    show utf8Valid (92 :: (List.replicate c 49 ++ [59])) = true
    rw [utf8Valid_cons, if_pos (by omega), utf8Valid_append, utf8Valid_replicate49]
    rfl

theorem utf8Valid_concatMap {α : Type} (f : α → Bytes) (xs : List α)
    (h : ∀ a ∈ xs, utf8Valid (f a) = true) : utf8Valid (concatMap f xs) = true := by
  induction xs with
  | nil => rfl
  | cons a t ih =>
    rw [concatMap_cons, utf8Valid_append, h a (by simp), ih (fun b hb => h b (by simp [hb]))]
    rfl

theorem utf8Valid_strLit (s : Bytes) : utf8Valid (strLit s) = true := by
  rw [strLit, List.cons_append, utf8Valid_cons, if_pos (by omega), utf8Valid_append,
    utf8Valid_concatMap escChar s (fun a _ => utf8Valid_escChar a)]
  rfl

theorem utf8Valid_statusTag (v : ValueStatus) : utf8Valid (statusTag v) = true := by
  cases v <;> rfl

/-- The model text encoder only emits valid text. -/
theorem tomlEncode_utf8 (v : SVal) : utf8Valid (tomlEncode v) = true := by
  cases v with
  | unitV => rfl
  | natV n =>
    rw [tomlEncode, List.cons_append, utf8Valid_cons, if_pos (by omega), utf8Valid_append,
      utf8Valid_replicate49]
    rfl
  | strV s => exact utf8Valid_strLit s
  | strArr xs =>
    rw [tomlEncode, List.cons_append, utf8Valid_cons, if_pos (by omega), utf8Valid_append,
      utf8Valid_concatMap strLit xs (fun a _ => utf8Valid_strLit a)]
    rfl
  | statusMap kvs =>
    rw [tomlEncode, List.cons_append, utf8Valid_cons, if_pos (by omega), utf8Valid_append,
      utf8Valid_concatMap _ kvs (fun a _ => by
        rw [utf8Valid_append, utf8Valid_strLit, utf8Valid_statusTag]; rfl)]
    rfl

/-- No model binary payload is valid text: it always starts with byte 200. -/
theorem binEncode_not_utf8 (v : SVal) : utf8Valid (binEncode v) = false := rfl

/-- The model text decoder rejects every model binary payload. -/
theorem tomlDecode_binEncode (v : SVal) : tomlDecode (binEncode v) = none := rfl



/-! ## Claim theorems: closed runs -/

/-- C1: refuted on the code.  A `generate` call that completes without an I/O
error returns a handle whose cell is still empty (`poll` yields `None`): the
generator is never invoked and nothing ever settles the handle; indeed the
whole run is independent of the generator function and of the panic error. -/
theorem generate_returns_unsettled_handle :
    (Res.val (DiskCache.generate exCache exId exKey exGen () stFresh)).map CacheHandle.poll
      = some none
    ∧ ∀ (g₁ g₂ : SVal → Except Unit SVal) (e₁ e₂ : Unit),
        DiskCache.generate exCache exId exKey g₁ e₁ = DiskCache.generate exCache exId exKey g₂ e₂ :=
  ⟨rfl, fun _ _ _ _ => rfl⟩

/-- C2: refuted on the code.  Requesting a key whose persisted status is
`Evicting` completes, but the persisted Item Manifest entry still reads
`Evicting` afterwards: the rewrite to `Loading` happens only in the in-memory
copy and is never written, and no transition to `InUse` ever happens. -/
theorem evicting_status_never_persisted :
    (Res.val (DiskCache.generate exCache exId exKey exGen () stEvicting)).map CacheHandle.poll
      = some none
    ∧ (Res.stOf (DiskCache.generate exCache exId exKey exGen () stEvicting)).map
        (fun s => (alookup s.files exItemManifestPath).map (decodeToml ItemManifestData))
      = some (some (some ⟨[(exKeyHash, ValueStatus.Evicting)]⟩)) :=
  ⟨rfl, rfl⟩

/-- C3 counterexample: in the absent-key run the exclusive lock on the value
file is acquired strictly before the updated Item Manifest is persisted, not
after it as the claim's order states: the write of the item manifest does not
precede the value-file lock acquisition in the trace, the acquisition precedes
the write. -/
theorem value_lock_precedes_manifest_persist :
    (Res.stOf (DiskCache.generate exCache exId exKey exGen () stFresh)).map
        (fun s => (precedesB s.trace (.wrote exItemManifestPath) (.lockedEx exValuePath),
                   precedesB s.trace (.lockedEx exValuePath) (.wrote exItemManifestPath)))
      = some (false, true) := rfl

/-- C5: refuted on the code at the payload encoding.  Writing a value through
a binary-format locked file and immediately reading it back does not return
`Some v`: the locked-file read decodes with the TOML text decoder (and the
binary bytes are not even valid UTF-8, so the read aborts with an I/O error);
moreover `Format::read` reads zero bytes into its empty buffer, so even the
format-aware reader returns `None` for every state. -/
theorem binary_write_read_never_roundtrips :
    Res.val ((do
        let f ← WriteLockedFile.new_binary pEx
        let f ← f.write (SVal.natV 5)
        WriteLockedFile.read SVal f) ⟨[], [(pEx, [])], [], [], [], []⟩) = none
    ∧ Res.isIoErr ((do
        let f ← WriteLockedFile.new_binary pEx
        let f ← f.write (SVal.natV 5)
        WriteLockedFile.read SVal f) ⟨[], [(pEx, [])], [], [], [], []⟩) = true
    ∧ ∀ s : St, Format.readF Format.binary SVal s = Res.ok none s :=
  ⟨rfl, rfl, fun _ => rfl⟩

/-- C6 counterexample: an I/O fault is turned into a panic.  With an injected
write fault on the root manifest and an empty manifest file, `generate`
panics (the `.unwrap()` inside `WriteLockedFile::read_or_initialize`) instead
of propagating the error. -/
theorem write_fault_during_init_panics :
    DiskCache.generate exCache exId exKey exGen ()
      ⟨[exRoot], [(exManifestPath, [])], [], [], [exManifestPath], []⟩ = Res.panicked := rfl

/-- C7 counterexample: not every corrupt file content is read as absence.
Content that is not valid UTF-8 makes `read()` abort with an I/O error
(`read_to_string` fails) instead of returning `None`. -/
theorem nonutf8_corrupt_read_errors :
    (do
        let f ← WriteLockedFile.new_toml pEx
        WriteLockedFile.read ManifestData f) ⟨[], [(pEx, [200])], [], [], [], []⟩
      = Res.ioErr ⟨[], [(pEx, [200])], [pEx], [], [], [Ev.lockedEx pEx]⟩ := rfl

/-- C8: refuted on the code.  On a read-locked file whose read yields nothing,
`read_or_initialize` releases the shared lock, takes the temporary exclusive
lock, re-checks, writes the default --- and then opens the fresh shared-locked
handle while the temporary exclusive lock is still held, so the acquisition
blocks forever (advisory locks conflict across handles): the protocol never
reaches the downgrade-and-re-read, and no value is ever returned. -/
theorem read_or_init_upgrade_deadlocks :
    (do
        let f ← ReadLockedFile.new pEx Format.toml
        ReadLockedFile.read_or_init ManifestData f (fun _ => ManifestData.default))
      ⟨[], [(pEx, [])], [], [], [], []⟩ = Res.blocked := rfl

/-- C9: refuted on the code.  After a completed `generate` call for a fresh
key, the persisted Item Manifest maps the key digest to `Loading` and the
value file exists, but no lock at all is held any more (the value file's
exclusive lock was dropped when the `Generate` result was discarded, and no
transition to `InUse` ever happened), so the lock state does not match the
persisted status. -/
theorem completed_generate_breaks_lock_invariant :
    (Res.stOf (DiskCache.generate exCache exId exKey exGen () stFresh)).map
        (fun s => ((alookup s.files exItemManifestPath).map (decodeToml ItemManifestData),
                   s.exLocks, s.shLocks, (alookup s.files exValuePath).isSome))
      = some (some (some ⟨[(exKeyHash, ValueStatus.Loading)]⟩), [], [], true) := rfl


/-! ## Lemmas for symbolic execution of runs -/

theorem bind_apply {α β : Type} (m : M α) (f : α → M β) (s : St) :
    (m >>= f) s = M.bind m f s := rfl

theorem pure_apply {α : Type} (a : α) (s : St) : (pure a : M α) s = Res.ok a s := rfl

theorem path_ext_ne (ip : Path) {a b : Bytes} (h : a ≠ b) : ip ++ [a] ≠ ip ++ [b] := by
  intro hc
  exact h (by simpa using hc)

theorem IMN_ne_keyhash {K : Type} [Serde K] (k : K) :
    ITEM_MANIFEST_NAME ≠ hexEncode (hash_serialize k) := by
  rw [hash_serialize, binEncode, hexEncode, concatMap_cons]
  simp [ITEM_MANIFEST_NAME]

theorem dropLast_app (l : Path) (a : Bytes) : (l ++ [a]).dropLast = l := by simp

theorem path_ne_len (l : Path) (a b c : Bytes) : l ++ [a] ≠ l ++ [b, c] := by
  intro hc
  have := congrArg List.length hc
  simp at this

theorem path_ne_snd (l : Path) (a : Bytes) {b c : Bytes} (h : b ≠ c) :
    l ++ [a, b] ≠ l ++ [a, c] := by
  intro hc
  have := List.append_cancel_left hc
  simp at this
  exact h this

theorem dropLast_app2 (l : Path) (a b : Bytes) : (l ++ [a, b]).dropLast = l ++ [a] := by
  rw [show l ++ [a, b] = (l ++ [a]) ++ [b] by simp]
  exact dropLast_app (l ++ [a]) b

theorem toS_item (m : ItemManifestData) : (Serde.toS m : SVal) = SVal.statusMap m.values := rfl

theorem fromS_statusMap (kvs : List (Bytes × ValueStatus)) :
    (Serde.fromS (SVal.statusMap kvs) : Option ItemManifestData) = some ⟨kvs⟩ := rfl

theorem toS_manifest (m : ManifestData) : (Serde.toS m : SVal) = SVal.strArr m.items := rfl

theorem fromS_strArr (xs : List Bytes) :
    (Serde.fromS (SVal.strArr xs) : Option ManifestData) = some ⟨xs⟩ := rfl

theorem alookup_cons_ne {κ β : Type} [DecidableEq κ] (k q : κ) (v : β) (l : List (κ × β))
    (h : k ≠ q) : alookup ((k, v) :: l) q = alookup l q := by
  simp [alookup, h]

theorem alookup_aupdate_ne {κ β : Type} [DecidableEq κ] (l : List (κ × β)) (p q : κ) (b : β)
    (h : p ≠ q) : alookup (aupdate l p b) q = alookup l q := by
  induction l with
  | nil => rfl
  | cons kv t ih =>
    by_cases hk : kv.1 = p
    · simp [aupdate, hk, alookup, h]
    · simp [aupdate, hk, alookup, ih]

theorem alookup_aupdate_self {κ β : Type} [DecidableEq κ] (l : List (κ × β)) (p : κ) (b c : β)
    (h : alookup l p = some c) : alookup (aupdate l p b) p = some b := by
  induction l with
  | nil => simp [alookup] at h
  | cons kv t ih =>
    by_cases hk : kv.1 = p
    · simp [aupdate, hk, alookup]
    · rw [alookup_cons_ne _ _ _ _ hk] at h
      simp [aupdate, hk, alookup, ih h]

theorem decodeToml_nil (T : Type) [Serde T] : decodeToml T [] = none := rfl

theorem decodeToml_statusMap (kvs : List (Bytes × ValueStatus)) :
    decodeToml ItemManifestData (tomlEncode (SVal.statusMap kvs)) = some ⟨kvs⟩ := by
  simp [decodeToml, tomlDecode_tomlEncode, fromS_statusMap]

theorem decodeToml_strArr (xs : List Bytes) :
    decodeToml ManifestData (tomlEncode (SVal.strArr xs)) = some ⟨xs⟩ := by
  simp [decodeToml, tomlDecode_tomlEncode, fromS_strArr]

theorem overwrite_statusmap_insert (kh : Bytes) (v : ValueStatus)
    (vals : List (Bytes × ValueStatus)) :
    overwriteBytes (tomlEncode (SVal.statusMap vals)) (tomlEncode (SVal.statusMap ((kh, v) :: vals)))
      = tomlEncode (SVal.statusMap ((kh, v) :: vals)) := by
  rw [overwriteBytes]
  have hlen : (tomlEncode (SVal.statusMap vals)).length ≤
      (tomlEncode (SVal.statusMap ((kh, v) :: vals))).length := by
    simp only [tomlEncode, concatMap_cons, List.length_cons, List.length_append]
    omega
  rw [List.drop_eq_nil_of_le hlen, List.append_nil]

theorem ne_panicked_of_completes {α : Type} {r : Res α} (h : Res.completes r = true) :
    r ≠ Res.panicked := by
  intro he
  rw [he] at h
  simp [Res.completes] at h

theorem ne_blocked_of_completes {α : Type} {r : Res α} (h : Res.completes r = true) :
    r ≠ Res.blocked := by
  intro he
  rw [he] at h
  simp [Res.completes] at h

/-- Whatever the bucket's files and directories look like, the per-key state
machine run under the root manifest's lock either completes or aborts with a
propagated I/O error --- it never panics and never blocks. -/
theorem check_item_completes (c : DiskCache) (ip : Path) (key : SVal)
    (dirs : List Path) (files : List (Path × Bytes)) (mp : Path) (tr : List Ev)
    (h1 : ip ++ [ITEM_MANIFEST_NAME] ≠ mp)
    (h2 : ip ++ [hexEncode (hash_serialize key)] ≠ mp) :
    Res.completes (DiskCache.check_existing_item c ip key
      ⟨dirs, files, [mp], [], [], tr⟩) = true := by
  have hiv : ip ++ [ITEM_MANIFEST_NAME] ≠ ip ++ [hexEncode (hash_serialize key)] :=
    path_ext_ne ip (IMN_ne_keyhash key)
  have hvi : ip ++ [hexEncode (hash_serialize key)] ≠ ip ++ [ITEM_MANIFEST_NAME] := hiv.symm
  rcases him : alookup files (ip ++ [ITEM_MANIFEST_NAME]) with _ | ci
  · by_cases hipd : ip ∈ dirs
    · rcases hvp : alookup files (ip ++ [hexEncode (hash_serialize key)]) with _ | cv <;>
        simp [DiskCache.check_existing_item, WriteLockedFile.new_toml,
          WriteLockedFile.new_binary, WriteLockedFile.new, WriteLockedFile.read_or_init,
          WriteLockedFile.read, WriteLockedFile.write, bind_apply, M.bind, pure_apply,
          openCreate, lockEx, unlockEx, readRaw, writeRaw, alookup, aupdate, eraseOne, dropW,
          unwrapR, throwErr, Format.encode, utf8Valid, decodeToml_nil, dropLast_app,
          ItemManifestData.default, toS_item, fromS_statusMap, him, hipd, hvp, h1, h2,
          hiv, hvi, alookup_cons_ne, alookup_aupdate_ne, Res.completes]
    · simp [DiskCache.check_existing_item, WriteLockedFile.new_toml, WriteLockedFile.new,
        bind_apply, M.bind, openCreate, dropLast_app, him, hipd, Res.completes]
  · by_cases hu : utf8Valid ci = true
    · rcases hd : decodeToml ItemManifestData ci with _ | m
      · rcases hvp : alookup files (ip ++ [hexEncode (hash_serialize key)]) with _ | cv <;>
          by_cases hipd : ip ∈ dirs <;>
          simp [DiskCache.check_existing_item, WriteLockedFile.new_toml,
            WriteLockedFile.new_binary, WriteLockedFile.new, WriteLockedFile.read_or_init,
            WriteLockedFile.read, WriteLockedFile.write, bind_apply, M.bind, pure_apply,
            openCreate, lockEx, unlockEx, readRaw, writeRaw, alookup, aupdate, eraseOne, dropW,
            unwrapR, throwErr, Format.encode, utf8Valid, dropLast_app,
            ItemManifestData.default, toS_item, fromS_statusMap, him, hu, hd, hipd, hvp,
            h1, h2, hiv, hvi, alookup_cons_ne, alookup_aupdate_ne, Res.completes,
            alookup_aupdate_self files _ _ ci him]
      · rcases hst : alookup m.values (hexEncode (hash_serialize key)) with _ | status
        · rcases hvp : alookup files (ip ++ [hexEncode (hash_serialize key)]) with _ | cv <;>
            by_cases hipd : ip ∈ dirs <;>
            simp [DiskCache.check_existing_item, WriteLockedFile.new_toml,
              WriteLockedFile.new_binary, WriteLockedFile.new, WriteLockedFile.read_or_init,
              WriteLockedFile.read, WriteLockedFile.write, bind_apply, M.bind, pure_apply,
              openCreate, lockEx, unlockEx, readRaw, writeRaw, alookup, aupdate, eraseOne,
              dropW, unwrapR, throwErr, Format.encode, utf8Valid, dropLast_app,
              toS_item, him, hu, hd, hst, hipd, hvp, h1, h2, hiv, hvi, alookup_cons_ne,
              alookup_aupdate_ne, Res.completes]
        · rcases status with _ | _ | _ <;>
            rcases hvp : alookup files (ip ++ [hexEncode (hash_serialize key)]) with _ | cv <;>
            by_cases hipd : ip ∈ dirs <;>
            simp [DiskCache.check_existing_item, WriteLockedFile.new_toml,
              WriteLockedFile.new_binary, WriteLockedFile.new, ReadLockedFile.new_binary,
              ReadLockedFile.new, WriteLockedFile.read_or_init, WriteLockedFile.read,
              WriteLockedFile.write, bind_apply, M.bind, pure_apply, openCreate, openRead,
              lockEx, lockSh, unlockEx, unlockSh, readRaw, writeRaw, alookup, aupdate,
              eraseOne, dropW, dropR, unwrapR, throwErr, Format.encode, utf8Valid,
              dropLast_app, toS_item, him, hu, hd, hst, hipd, hvp, h1, h2, hiv, hvi,
              alookup_cons_ne, alookup_aupdate_ne, Res.completes]
    · simp [DiskCache.check_existing_item, WriteLockedFile.new_toml, WriteLockedFile.new,
        WriteLockedFile.read_or_init, WriteLockedFile.read, bind_apply, M.bind, pure_apply,
        openCreate, lockEx, readRaw, throwErr, him, hu, h1, h2, hiv, hvi, alookup,
        Res.completes]

/-! ## Claim theorems: universal runs -/

/-- C10: confirmed.  The locked-file read decodes with the structured-text
decoder regardless of the format the file was opened with: for any handle
format the read of a text-encoded file succeeds with the TOML-decoded value,
and a value file holding a binary payload is never decoded back --- reading it
aborts (the binary bytes are not valid UTF-8 text). -/
theorem locked_read_always_toml :
    (∀ (T : Type) (inst : Serde T) (d : T) (p : Path) (fmt : Format) (pos : Nat)
        (dirs : List Path) (tr : List Ev),
        WriteLockedFile.read T ⟨p, fmt, pos⟩
            ⟨dirs, [(p, tomlEncode (Serde.toS d))], [p], [], [], tr⟩
          = Res.ok (Serde.fromS (Serde.toS d), ⟨p, fmt, (tomlEncode (Serde.toS d)).length⟩)
              ⟨dirs, [(p, tomlEncode (Serde.toS d))], [p], [], [], tr⟩)
    ∧ (∀ (T : Type) (inst : Serde T) (d : T) (p : Path) (fmt : Format)
        (dirs : List Path) (tr : List Ev),
        ReadLockedFile.read T ⟨p, fmt, 0, true⟩
            ⟨dirs, [(p, tomlEncode (Serde.toS d))], [], [p], [], tr⟩
          = Res.ok (Serde.fromS (Serde.toS d), ⟨p, fmt, (tomlEncode (Serde.toS d)).length, true⟩)
              ⟨dirs, [(p, tomlEncode (Serde.toS d))], [], [p], [], tr⟩)
    ∧ ∀ (v : SVal) (p : Path) (dirs : List Path) (tr : List Ev),
        WriteLockedFile.read SVal ⟨p, Format.binary, 0⟩ ⟨dirs, [(p, binEncode v)], [p], [], [], tr⟩
          = Res.ioErr ⟨dirs, [(p, binEncode v)], [p], [], [], tr⟩ := by
  refine ⟨?_, ?_, ?_⟩
  · intro T inst d p fmt pos dirs tr
    simp [WriteLockedFile.read, bind_apply, M.bind, readRaw, alookup, pure_apply,
      decodeToml, tomlDecode_tomlEncode, tomlEncode_utf8]
  · intro T inst d p fmt dirs tr
    simp [ReadLockedFile.read, bind_apply, M.bind, readRaw, alookup, pure_apply,
      decodeToml, tomlDecode_tomlEncode, tomlEncode_utf8]
  · intro v p dirs tr
    simp [WriteLockedFile.read, bind_apply, M.bind, readRaw, alookup, pure_apply,
      binEncode_not_utf8, throwErr]

/-- C3 amended: for every key absent from the Item Manifest, the state machine
inserts status Loading, acquires the exclusive lock on the value file at
bucket/key_digest, then persists the updated Item Manifest, and reports that
the caller must generate. -/
theorem absent_key_inserts_loading_then_persists (c : DiskCache) (ip : Path) (key : SVal)
    (vals : List (Bytes × ValueStatus)) (dirs : List Path)
    (h : alookup vals (hexEncode (hash_serialize key)) = none) :
    AbsentKeySpec c ip key vals dirs := by
  have hne : ip ++ [ITEM_MANIFEST_NAME] ≠ ip ++ [hexEncode (hash_serialize key)] :=
    path_ext_ne ip (IMN_ne_keyhash key)
  have hne' : ip ++ [hexEncode (hash_serialize key)] ≠ ip ++ [ITEM_MANIFEST_NAME] := hne.symm
  constructor
  · simp [DiskCache.check_existing_item, WriteLockedFile.new_toml, WriteLockedFile.new_binary,
      WriteLockedFile.new, WriteLockedFile.read_or_init, WriteLockedFile.read,
      WriteLockedFile.write, bind_apply, M.bind, pure_apply, openCreate, lockEx, unlockEx,
      readRaw, writeRaw, alookup, aupdate, eraseOne, dropW, decodeToml, Format.encode,
      tomlDecode_tomlEncode, tomlEncode_utf8, toS_item, fromS_statusMap,
      overwrite_statusmap_insert, dropLast_app, hne, hne', h, throwErr, unwrapR, panicM]
  · simp [decodeToml_statusMap, toS_item]

/-- C3 witness: the amended absent-key behavior holds at a concrete bucket,
unit key and empty manifest. -/
theorem absent_key_witness :
    alookup ([] : List (Bytes × ValueStatus)) (hexEncode (hash_serialize exKey)) = none
    ∧ AbsentKeySpec exCache exBucket exKey [] [] :=
  ⟨rfl, absent_key_inserts_loading_then_persists exCache exBucket exKey [] [] rfl⟩

/-- C4: confirmed.  For every identifier whose bucket directory does not exist
(and whose item manifest file, accordingly, does not exist), a fault-free
`generate` call aborts with an I/O error, and the directories on disk are left
unchanged: nothing ever creates the bucket. -/
theorem bucket_missing_generate_fails (root : Path) (id : Bytes) (key : SVal)
    (g : SVal → Except Unit SVal) (e : Unit) (dirs : List Path) (files : List (Path × Bytes))
    (hb : (root ++ [hexEncode (hash_serialize id)]) ∉ dirs)
    (hf : alookup files ((root ++ [hexEncode (hash_serialize id)]) ++ [ITEM_MANIFEST_NAME]) = none) :
    Res.isIoErr (DiskCache.generate ⟨root, root ++ [MANIFEST_NAME]⟩ id key g e
        ⟨dirs, files, [], [], [], []⟩) = true
    ∧ (Res.stOf (DiskCache.generate ⟨root, root ++ [MANIFEST_NAME]⟩ id key g e
        ⟨dirs, files, [], [], [], []⟩)).map St.dirs = some dirs := by
  simp only [List.append_assoc, List.singleton_append] at hf
  have hne_mi : root ++ [MANIFEST_NAME]
      ≠ root ++ [hexEncode (hash_serialize id), ITEM_MANIFEST_NAME] :=
    path_ne_len root _ _ _
  rcases hml : alookup files (root ++ [MANIFEST_NAME]) with _ | c
  · by_cases hr : root ∈ dirs
    · constructor <;>
        simp [DiskCache.generate, DiskCache.check_existing_item, WriteLockedFile.new_toml,
          WriteLockedFile.new_binary, WriteLockedFile.new, WriteLockedFile.read_or_init,
          WriteLockedFile.read, WriteLockedFile.write, bind_apply, M.bind, pure_apply,
          openCreate, lockEx, unlockEx, readRaw, writeRaw, alookup, aupdate, eraseOne, dropW,
          unwrapR, throwErr, Format.encode, utf8Valid, decodeToml_nil, dropLast_app,
          dropLast_app2, ManifestData.default, ItemManifestData.default,
          toS_manifest, fromS_strArr, hml, hr, hb, hf, hne_mi, alookup_cons_ne,
          alookup_aupdate_ne, Res.isIoErr, Res.stOf]
    · constructor <;>
        simp [DiskCache.generate, WriteLockedFile.new_toml, WriteLockedFile.new, bind_apply,
          M.bind, openCreate, dropLast_app, hml, hr, Res.isIoErr, Res.stOf]
  · have hself : ∀ b, alookup (aupdate files (root ++ [MANIFEST_NAME]) b)
        (root ++ [MANIFEST_NAME]) = some b :=
      fun b => alookup_aupdate_self files _ b c hml
    by_cases hu : utf8Valid c = true
    · rcases hd : decodeToml ManifestData c with _ | m
      · constructor <;>
          simp [DiskCache.generate, DiskCache.check_existing_item, WriteLockedFile.new_toml,
            WriteLockedFile.new_binary, WriteLockedFile.new, WriteLockedFile.read_or_init,
            WriteLockedFile.read, WriteLockedFile.write, bind_apply, M.bind, pure_apply,
            openCreate, lockEx, unlockEx, readRaw, writeRaw, alookup, aupdate, eraseOne, dropW,
            unwrapR, throwErr, Format.encode, utf8Valid, dropLast_app, dropLast_app2,
            ManifestData.default, ItemManifestData.default, toS_manifest,
            fromS_strArr, hml, hu, hd, hself, hb, hf, hne_mi, alookup_cons_ne,
            alookup_aupdate_ne, Res.isIoErr, Res.stOf]
      · by_cases hid : id ∈ m.items
        · constructor <;>
            simp [DiskCache.generate, DiskCache.check_existing_item, WriteLockedFile.new_toml,
              WriteLockedFile.new, WriteLockedFile.read_or_init, WriteLockedFile.read,
              bind_apply, M.bind, pure_apply, openCreate, lockEx, readRaw, dropLast_app,
              dropLast_app2, hml, hu, hd, hid, hb, hf, hne_mi, Res.isIoErr, Res.stOf]
        · constructor <;>
            simp [DiskCache.generate, DiskCache.check_existing_item, WriteLockedFile.new_toml,
              WriteLockedFile.new, WriteLockedFile.read_or_init, WriteLockedFile.read,
              WriteLockedFile.write, bind_apply, M.bind, pure_apply, openCreate, lockEx,
              readRaw, writeRaw, alookup, aupdate, dropLast_app, dropLast_app2, Format.encode,
              toS_manifest, hml, hu, hd, hid, hself, hb, hf, hne_mi, alookup_cons_ne,
              alookup_aupdate_ne, Res.isIoErr, Res.stOf]
    · constructor <;>
        simp [DiskCache.generate, WriteLockedFile.new_toml, WriteLockedFile.new,
          WriteLockedFile.read_or_init, WriteLockedFile.read, bind_apply, M.bind, pure_apply,
          openCreate, lockEx, readRaw, throwErr, hml, hu, Res.isIoErr, Res.stOf]

/-- C4 witness: the first request for the example identifier on an empty
filesystem fails with an I/O error and creates no directory. -/
theorem bucket_missing_witness :
    ((exBucket ∉ ([] : List Path))
      ∧ alookup ([] : List (Path × Bytes)) (exBucket ++ [ITEM_MANIFEST_NAME]) = none)
    ∧ Res.isIoErr (DiskCache.generate ⟨exRoot, exRoot ++ [MANIFEST_NAME]⟩ exId exKey exGen ()
        ⟨[], [], [], [], [], []⟩) = true
    ∧ (Res.stOf (DiskCache.generate ⟨exRoot, exRoot ++ [MANIFEST_NAME]⟩ exId exKey exGen ()
        ⟨[], [], [], [], [], []⟩)).map St.dirs = some [] :=
  ⟨⟨by simp, rfl⟩,
    bucket_missing_generate_fails exRoot exId exKey exGen () [] [] (by simp) rfl⟩

/-- C6 amended: in the absence of injected write faults, a `generate` call
from any filesystem with no held locks always either completes or aborts with
a propagated I/O error --- it never panics and never blocks; I/O faults are
surfaced to the caller as errors of the aborted call, without retry. -/
theorem generate_no_fault_completes (root : Path) (id : Bytes) (key : SVal)
    (g : SVal → Except Unit SVal) (e : Unit) (dirs : List Path)
    (files : List (Path × Bytes)) :
    Res.completes (DiskCache.generate ⟨root, root ++ [MANIFEST_NAME]⟩ id key g e
      ⟨dirs, files, [], [], [], []⟩) = true := by
  have h1 : (root ++ [hexEncode (hash_serialize id)]) ++ [ITEM_MANIFEST_NAME]
      ≠ root ++ [MANIFEST_NAME] := by
    intro hc
    have := congrArg List.length hc
    simp at this
  have h2 : (root ++ [hexEncode (hash_serialize id)]) ++ [hexEncode (hash_serialize key)]
      ≠ root ++ [MANIFEST_NAME] := by
    intro hc
    have := congrArg List.length hc
    simp at this
  rcases hml : alookup files (root ++ [MANIFEST_NAME]) with _ | c
  · by_cases hr : root ∈ dirs
    · simp [DiskCache.generate, WriteLockedFile.new_toml, WriteLockedFile.new,
        WriteLockedFile.read_or_init, WriteLockedFile.read, WriteLockedFile.write,
        bind_apply, M.bind, pure_apply, openCreate, lockEx, unlockEx, readRaw, writeRaw,
        alookup, aupdate, eraseOne, dropLast_app, unwrapR, throwErr, Format.encode,
        utf8Valid, decodeToml_nil, ManifestData.default, toS_manifest, hml, hr]
      split <;> first | (rename_i heq; exact absurd heq (ne_panicked_of_completes (check_item_completes _ _ _ _ _ _ _ h1 h2))) | (rename_i heq; exact absurd heq (ne_blocked_of_completes (check_item_completes _ _ _ _ _ _ _ h1 h2))) | (simp [Res.completes]; done) | (rename_i a s' heq; rcases a with wf | ⟨rp, rfmt, rpos, rl⟩ <;> (try cases rl) <;> simp [dropG, dropW, dropR, unlockEx, unlockSh, M.bind, pure_apply, Res.completes])
    · simp [DiskCache.generate, WriteLockedFile.new_toml, WriteLockedFile.new, bind_apply,
        M.bind, openCreate, dropLast_app, hml, hr, Res.completes]
  · have hself : ∀ b, alookup (aupdate files (root ++ [MANIFEST_NAME]) b)
        (root ++ [MANIFEST_NAME]) = some b :=
      fun b => alookup_aupdate_self files _ b c hml
    by_cases hu : utf8Valid c = true
    · rcases hd : decodeToml ManifestData c with _ | m
      · simp [DiskCache.generate, WriteLockedFile.new_toml, WriteLockedFile.new,
          WriteLockedFile.read_or_init, WriteLockedFile.read, WriteLockedFile.write,
          bind_apply, M.bind, pure_apply, openCreate, lockEx, unlockEx, readRaw, writeRaw,
          alookup, aupdate, eraseOne, dropLast_app, unwrapR, throwErr, Format.encode,
          utf8Valid, ManifestData.default, toS_manifest, hml, hu, hd, hself]
        split <;> first | (rename_i heq; exact absurd heq (ne_panicked_of_completes (check_item_completes _ _ _ _ _ _ _ h1 h2))) | (rename_i heq; exact absurd heq (ne_blocked_of_completes (check_item_completes _ _ _ _ _ _ _ h1 h2))) | (simp [Res.completes]; done) | (rename_i a s' heq; rcases a with wf | ⟨rp, rfmt, rpos, rl⟩ <;> (try cases rl) <;> simp [dropG, dropW, dropR, unlockEx, unlockSh, M.bind, pure_apply, Res.completes])
      · by_cases hid : id ∈ m.items
        · simp [DiskCache.generate, WriteLockedFile.new_toml, WriteLockedFile.new,
            WriteLockedFile.read_or_init, WriteLockedFile.read, bind_apply, M.bind,
            pure_apply, openCreate, lockEx, readRaw, hml, hu, hd, hid]
          split <;> first | (rename_i heq; exact absurd heq (ne_panicked_of_completes (check_item_completes _ _ _ _ _ _ _ h1 h2))) | (rename_i heq; exact absurd heq (ne_blocked_of_completes (check_item_completes _ _ _ _ _ _ _ h1 h2))) | (simp [Res.completes]; done) | (rename_i a s' heq; rcases a with wf | ⟨rp, rfmt, rpos, rl⟩ <;> (try cases rl) <;> simp [dropG, dropW, dropR, unlockEx, unlockSh, M.bind, pure_apply, Res.completes])
        · simp [DiskCache.generate, WriteLockedFile.new_toml, WriteLockedFile.new,
            WriteLockedFile.read_or_init, WriteLockedFile.read, WriteLockedFile.write,
            bind_apply, M.bind, pure_apply, openCreate, lockEx, readRaw, writeRaw, alookup,
            aupdate, Format.encode, toS_manifest, hml, hu, hd, hid, hself]
          split <;> first | (rename_i heq; exact absurd heq (ne_panicked_of_completes (check_item_completes _ _ _ _ _ _ _ h1 h2))) | (rename_i heq; exact absurd heq (ne_blocked_of_completes (check_item_completes _ _ _ _ _ _ _ h1 h2))) | (simp [Res.completes]; done) | (rename_i a s' heq; rcases a with wf | ⟨rp, rfmt, rpos, rl⟩ <;> (try cases rl) <;> simp [dropG, dropW, dropR, unlockEx, unlockSh, M.bind, pure_apply, Res.completes])
    · simp [DiskCache.generate, WriteLockedFile.new_toml, WriteLockedFile.new,
        WriteLockedFile.read_or_init, WriteLockedFile.read, bind_apply, M.bind, pure_apply,
        openCreate, lockEx, readRaw, throwErr, hml, hu, Res.completes]

/-- C7 amended: a locked read of a file whose content is empty or valid UTF-8
but undecodable returns the absence marker rather than an error, and a
`generate` call that encounters such a root manifest reinitializes it via
`read_or_initialize` and completes without failing the caller. -/
theorem corrupt_text_read_absent_and_recovers (root : Path) (id : Bytes) (key : SVal)
    (g : SVal → Except Unit SVal) (e : Unit) (p : Path) (fmt : Format) (pos : Nat)
    (dirs : List Path) (tr : List Ev) (content : Bytes)
    (hu : utf8Valid content = true) (hd : decodeToml ManifestData content = none) :
    CorruptRecoverySpec root id key g e p fmt pos dirs tr content := by
  have hmi : root ++ [MANIFEST_NAME]
      ≠ root ++ [hexEncode (hash_serialize id), ITEM_MANIFEST_NAME] := path_ne_len root _ _ _
  have hmv : root ++ [MANIFEST_NAME]
      ≠ root ++ [hexEncode (hash_serialize id), hexEncode (hash_serialize key)] :=
    path_ne_len root _ _ _
  have hiv : root ++ [hexEncode (hash_serialize id), ITEM_MANIFEST_NAME]
      ≠ root ++ [hexEncode (hash_serialize id), hexEncode (hash_serialize key)] :=
    path_ne_snd root _ (IMN_ne_keyhash key)
  refine ⟨?_, ?_, ?_, ?_⟩
  · simp [WriteLockedFile.read, bind_apply, M.bind, pure_apply, readRaw, alookup, hu, hd]
  · simp [ReadLockedFile.read, bind_apply, M.bind, pure_apply, readRaw, alookup, hu, hd]
  · simp [DiskCache.generate, DiskCache.check_existing_item, WriteLockedFile.new_toml,
      WriteLockedFile.new_binary, WriteLockedFile.new, WriteLockedFile.read_or_init,
      WriteLockedFile.read, WriteLockedFile.write, bind_apply, M.bind, pure_apply,
      openCreate, lockEx, unlockEx, readRaw, writeRaw, alookup, aupdate, eraseOne, dropW,
      dropG, unwrapR, throwErr, Format.encode, utf8Valid, dropLast_app, dropLast_app2,
      ManifestData.default, ItemManifestData.default, toS_manifest, toS_item,
      fromS_strArr, fromS_statusMap, tomlDecode_tomlEncode, tomlEncode_utf8,
      decodeToml_statusMap, decodeToml_strArr, hu, hd,
      hmi, hmv, hiv, hmi.symm, hmv.symm, hiv.symm, Res.val, Res.stOf, CacheHandle.poll]
  · simp [DiskCache.generate, DiskCache.check_existing_item, WriteLockedFile.new_toml,
      WriteLockedFile.new_binary, WriteLockedFile.new, WriteLockedFile.read_or_init,
      WriteLockedFile.read, WriteLockedFile.write, bind_apply, M.bind, pure_apply,
      openCreate, lockEx, unlockEx, readRaw, writeRaw, alookup, aupdate, eraseOne, dropW,
      dropG, unwrapR, throwErr, Format.encode, utf8Valid, dropLast_app, dropLast_app2,
      ManifestData.default, ItemManifestData.default, toS_manifest, toS_item,
      fromS_strArr, fromS_statusMap, tomlDecode_tomlEncode, tomlEncode_utf8,
      decodeToml_statusMap, decodeToml_strArr, hu, hd,
      hmi, hmv, hiv, hmi.symm, hmv.symm, hiv.symm, Res.val, Res.stOf, CacheHandle.poll]

/-- C7 witness: recovery from the concrete corrupt one-byte manifest content. -/
theorem corrupt_recovery_witness :
    utf8Valid [63] = true
    ∧ decodeToml ManifestData [63] = none
    ∧ CorruptRecoverySpec exRoot exId exKey exGen () pEx Format.toml 0 [] [] [63] :=
  ⟨rfl, rfl,
    corrupt_text_read_absent_and_recovers exRoot exId exKey exGen () pEx Format.toml 0 [] []
      [63] rfl rfl⟩

end Substrate2Cache
